import Mathlib

/-!
Verification development for the opencubes polycube enumerator.

The C++ sources are shallowly embedded below.  Machine integers are
modelled as `Nat` with explicit `% 2^w` where overflow can matter;
`int8_t` components of a coordinate are modelled as their byte value
(a `Nat` kept below 256 by `% 256` at every arithmetic step), which is
faithful because the source compares coordinates only through unsigned
packed views of the underlying bytes.  Operations whose C++ execution
is undefined (out-of-bounds indexing, division by zero, splicing a
list's `end()` iterator, dereferencing a null file handle) are modelled
with `Option`, returning `none` exactly at the undefined call.
-/

set_option maxRecDepth 4000

/-- Coordinate of a unit cube: three `int8_t` components stored as their
byte values (cube.hpp `struct XYZ { int8_t data[3]; }`). -/
structure XYZ where
  x : Nat
  y : Nat
  z : Nat
deriving DecidableEq, Repr

/-- cube.hpp `operator uint32_t`: the packed 24-bit value
`((uint8_t)data[0] << 16) | ((uint8_t)data[1] << 8) | ((uint8_t)data[2])`. -/
def XYZ.pack (p : XYZ) : Nat := p.x * 65536 + p.y * 256 + p.z

/-- cube.hpp `XYZ::operator<`: comparison of the packed 24-bit values. -/
def XYZ.packLt (a b : XYZ) : Bool := a.pack < b.pack

/-- structs.hpp `XYZ::joined`: the `int32_t` overlaying the bytes
`x, y, z, res = 0` on a little-endian host, i.e. `x + 256*y + 65536*z`
for the byte values. structs.hpp `XYZ::operator<` compares these. -/
def XYZ.joined (p : XYZ) : Nat := p.x + p.y * 256 + p.z * 65536

/-- cube.hpp `XYZ::operator+=`: componentwise `int8_t` addition, which
wraps modulo 256 on the underlying bytes. -/
def XYZ.add (a b : XYZ) : XYZ :=
  ⟨(a.x + b.x) % 256, (a.y + b.y) % 256, (a.z + b.z) % 256⟩

/-- Insertion of a coordinate into a list sorted by `XYZ.packLt`
(used to model `std::sort(cube.begin(), cube.end())` with cube.hpp's
`XYZ::operator<`; the sorted sequence of values is unique, so any
correct sort agrees with insertion sort). -/
def insertPack (p : XYZ) : List XYZ → List XYZ
  | [] => [p]
  | q :: qs => if p.pack < q.pack then p :: q :: qs else q :: insertPack p qs

/-- `std::sort` by cube.hpp `XYZ::operator<`. -/
def sortPack (l : List XYZ) : List XYZ := l.foldr insertPack []

/-- Insertion of a coordinate into a list sorted by structs.hpp
`XYZ::operator<` (the `joined` order). -/
def insertJoined (p : XYZ) : List XYZ → List XYZ
  | [] => [p]
  | q :: qs => if p.joined < q.joined then p :: q :: qs else q :: insertJoined p qs

/-- `std::sort` by structs.hpp `XYZ::operator<`. -/
def sortJoined (l : List XYZ) : List XYZ := l.foldr insertJoined []

namespace CompressedCube

/-- compressedCube.hpp `dirs`: the six unit moves
`{0,0,1},{0,0,-1},{0,1,0},{0,-1,0},{1,0,0},{-1,0,0}` with `-1` stored as
the `int8_t` byte `255`. -/
def dirs : List XYZ :=
  [⟨0, 0, 1⟩, ⟨0, 0, 255⟩, ⟨0, 1, 0⟩, ⟨0, 255, 0⟩, ⟨1, 0, 0⟩, ⟨255, 0, 0⟩]

/-- State of `CompressedCube::encode`'s nibble emitter: the local
`nibbles` and `nibbleCount`, the 24-byte `enc` array, and the write
cursor `put` (which starts at `enc.data()`, i.e. index 0). -/
structure EncState where
  nibbles : Nat
  nibbleCount : Nat
  enc : List Nat
  putIdx : Nat
deriving Repr, DecidableEq

/-- The `push` lambda of `CompressedCube::encode`.  On every second
nibble it stores the combined byte at `*put++` and then increments
`out.encodedLen()`, which is `enc[0]` — the same byte the first store
wrote to. -/
def pushNibble (s : EncState) (inst : Nat) : EncState :=
  if s.nibbleCount % 2 = 1 then
    let nib := ((s.nibbles * 16) % 256) ||| (inst % 16)
    let enc1 := s.enc.set s.putIdx nib
    let enc2 := enc1.set 0 ((enc1.getD 0 0 + 1) % 256)
    ⟨nib, s.nibbleCount + 1, enc2, s.putIdx + 1⟩
  else
    ⟨inst % 16, s.nibbleCount + 1, s.enc, s.putIdx⟩

/-- Walk state of `CompressedCube::encode`: coordinates not yet emitted
(`left`), already emitted (`done`), the current position (`last`) and
the emitter state. -/
structure WalkState where
  left : List XYZ
  done : List XYZ
  last : XYZ
  es : EncState
deriving Repr

/-- The direction scan of the encode loop: the first `i < 6` with
`last + dirs[i]` present in `left` (`std::find` uses `XYZ::operator==`). -/
def findDir (left : List XYZ) (last : XYZ) : Option (Nat × XYZ) :=
  (List.range 6).findSome? fun i =>
    let next := last.add (dirs.getD i ⟨0, 0, 0⟩)
    if left.contains next then some (i, next) else none

/-- Index of the first occurrence of `p` in a list, if any (the forward
scan `for (j = 0; j < done.size(); ++j)`). -/
def firstIdx (p : XYZ) : List XYZ → Option Nat
  | [] => none
  | q :: qs => if q = p then some 0 else (firstIdx p qs).map (· + 1)

/-- One jump candidate test: the first direction `i < 6` and first index
`j` into `done` with `done[j] == jumpcand + dirs[i]`. -/
def findJump (done : List XYZ) (cand : XYZ) : Option (Nat × Nat) :=
  (List.range 6).findSome? fun i =>
    let refcand := cand.add (dirs.getD i ⟨0, 0, 0⟩)
    match firstIdx refcand done with
    | some j => some (i, j)
    | none => none

/-- Emit the jump instructions for reverse index `revidx` followed by the
inverse move `i ^ 1`, exactly as the found-branch of the jump scan does
(`revidx >= 0x8` splits off one extra high nibble of 3 bits; higher bits
are discarded by the `& 0x7` masks). -/
def emitJump (es : EncState) (revidx i : Nat) : EncState :=
  let es1 :=
    if revidx ≥ 8 then
      let tmp := (revidx / 8) % 8
      pushNibble (pushNibble es (8 ||| tmp)) (8 ||| (revidx % 8))
    else
      pushNibble es (8 ||| revidx)
  pushNibble es1 (i ^^^ 1)

/-- The jump-candidate loop (`for jumpcand_it = left.begin(); ...`).
After a successful erase at position `k` the stale iterator is
incremented, so the scan resumes at position `k + 1` of the shrunken
vector (skipping the element that moved into position `k`).  Returns the
walk state and whether any candidate was found. -/
def jumpScan (fuel : Nat) (k : Nat) (ws : WalkState) (found : Bool) : WalkState × Bool :=
  match fuel with
  | 0 => (ws, found)
  | fuel + 1 =>
    if h : k < ws.left.length then
      let cand := ws.left.get ⟨k, h⟩
      match findJump ws.done cand with
      | some (i, j) =>
        let revidx := ws.done.length - j - 1
        let ws' : WalkState :=
          ⟨ws.left.eraseIdx k, ws.done ++ [cand], cand, emitJump ws.es revidx i⟩
        jumpScan fuel (k + 1) ws' true
      | none => jumpScan fuel (k + 1) ws found
    else (ws, found)

/-- The outer `while (left.size() > 0)` loop of `CompressedCube::encode`.
Returns the final emitter state and whether the walk completed without
the `ERROR unconnected` branch. -/
def encodeLoop (fuel : Nat) (ws : WalkState) : EncState × Bool :=
  match fuel with
  | 0 => (ws.es, true)
  | fuel + 1 =>
    if ws.left.isEmpty then (ws.es, true)
    else
      match findDir ws.left ws.last with
      | some (i, next) =>
        encodeLoop fuel
          ⟨ws.left.erase next, ws.done ++ [next], next, pushNibble ws.es i⟩
      | none =>
        let (ws', found) := jumpScan (ws.left.length + 1) 0 ws false
        if found then encodeLoop fuel ws' else (ws'.es, false)

/-- `CompressedCube::encode` on a nonempty coordinate sequence: the
output is the 24-byte `enc` array (initialised to `0x88`, then
`encodedLen() = enc[0]` zeroed) together with the connectivity flag
(false exactly when the source prints `ERROR unconnected`). -/
def encode (cube : List XYZ) : List Nat × Bool :=
  match cube with
  | [] => (((List.replicate 24 136).set 0 0), true)
  | c0 :: rest =>
    let enc0 := (List.replicate 24 136).set 0 0
    let ws0 : WalkState := ⟨rest, [c0], c0, ⟨0, 0, enc0, 0⟩⟩
    let (es, ok) := encodeLoop (rest.length + 1) ws0
    let esPad := if es.nibbleCount % 2 = 1 then pushNibble es 8 else es
    (esPad.enc, ok)

/-- `noJump` sentinel of `CompressedCube::decode` (`0x80000000`). -/
def noJump : Nat := 2147483648

/-- Decode-loop state: pending jump offset (`uint32_t`), current
position, the `cube` array (allocated with `sizehint` zero-initialised
slots, slot 0 already holding `start`) and `currSize`. -/
structure DecState where
  jumpoff : Nat
  last : XYZ
  arr : List XYZ
  currSize : Nat
deriving Repr, DecidableEq

/-- One nibble instruction of `CompressedCube::decode`.  Returns
`none` where the C++ execution is undefined: a direction nibble `6`/`7`
(out-of-bounds `dirs` access), a rebased index outside the allocated
array, or a store past the allocated array. -/
def decodeStep (sizehint : Nat) (st : DecState) (inst : Nat) : Option (DecState × Bool) :=
  if inst % 16 ≥ 8 then
    some (⟨(((st.jumpoff * 8) % 4294967296) ||| (inst % 8)), st.last, st.arr, st.currSize⟩, false)
  else
    let step1 : Option DecState :=
      if st.jumpoff ≠ noJump then
        let idx := (st.currSize - 1 + (4294967296 - st.jumpoff)) % 4294967296
        if h : idx < st.arr.length then
          some ⟨noJump, st.arr.get ⟨idx, h⟩, st.arr, st.currSize⟩
        else none
      else some ⟨st.jumpoff, st.last, st.arr, st.currSize⟩
    match step1 with
    | none => none
    | some st1 =>
      if inst % 16 ≥ 6 then none
      else
        let moved := st1.last.add (dirs.getD (inst % 16) ⟨0, 0, 0⟩)
        if st1.currSize < st1.arr.length then
          some (⟨noJump, moved, st1.arr.set st1.currSize moved, st1.currSize + 1⟩,
                st1.currSize + 1 = sizehint)
        else none

/-- The nibble loop of `CompressedCube::decode` over instruction indices
`i`, with the `currSize == sizehint` break. -/
def decodeLoop (enc : List Nat) (sizehint : Nat) (st : DecState) : List Nat → Option DecState
  | [] => some st
  | i :: is =>
    let byte := enc.getD (i / 2) 0
    let inst := if i % 2 = 1 then byte % 16 else byte / 16
    match decodeStep sizehint st inst with
    | none => none
    | some (st', stop) => if stop then some st' else decodeLoop enc sizehint st' is

/-- `CompressedCube::decode(sizehint, start)`: runs the nibble loop for
`encodedLen() * 2` instructions (where `encodedLen()` is `enc[0]`) and
sorts the resulting array with cube.hpp `XYZ::operator<`. -/
def decode (enc : List Nat) (sizehint : Nat) (start : XYZ) : Option (List XYZ) :=
  if sizehint = 0 then none
  else
    let st0 : DecState := ⟨noJump, start, (List.replicate sizehint ⟨0, 0, 0⟩).set 0 start, 1⟩
    match decodeLoop enc sizehint st0 (List.range ((enc.getD 0 0) * 2)) with
    | none => none
    | some st => some (sortPack st.arr)

end CompressedCube

/-- The straight tromino in its canonical form: sorted, zero-aligned,
6-connected. -/
def straightTromino : List XYZ := [⟨0, 0, 0⟩, ⟨0, 0, 1⟩, ⟨0, 0, 2⟩]

/-- C1: for a connected cube `c`, `sort(decode(encode(c), |c|, c[0]))`
should equal `sort(c)`.  Evaluating the embedded code at the straight
tromino refutes this: the encoder walks it without any jump (the
connectivity flag is `true`), yet because `encode`'s `put` cursor starts
at `enc.data()` — the same byte as `encodedLen()` — the stream's first
byte is corrupted by the length increments, and decoding yields the
multiset {(0,0,0), (0,0,0), (0,0,1)} instead of {(0,0,0), (0,0,1),
(0,0,2)}.  This contradicts the repository's own round-trip checker
program, which reports ERROR when `decode(encode(c), |c|, c[0]) != c`. -/
theorem c1_roundtrip_fails_straightTromino :
    (CompressedCube.encode straightTromino).2 = true ∧
    CompressedCube.decode (CompressedCube.encode straightTromino).1 3 ⟨0, 0, 0⟩ =
      some [⟨0, 0, 0⟩, ⟨0, 0, 0⟩, ⟨0, 0, 1⟩] ∧
    sortPack straightTromino = [⟨0, 0, 0⟩, ⟨0, 0, 1⟩, ⟨0, 0, 2⟩] ∧
    CompressedCube.decode (CompressedCube.encode straightTromino).1 3 ⟨0, 0, 0⟩ ≠
      some (sortPack straightTromino) := by
  refine ⟨rfl, rfl, rfl, ?_⟩
  decide

namespace Rotations

/-- Modelled from the spec: rotations.hpp (`Rotations::rotate`) is not
under src/.  Section 2 names "the rotation matrices" as an external
collaborator and the glossary defines the canonical form over "all 24
rotations of the cube".  A rotation is a signed axis permutation of
determinant one: `perm` gives the source axis for each output axis and
`s0 s1 s2` the signs. -/
structure Rot where
  p0 : Nat
  p1 : Nat
  p2 : Nat
  s0 : Int
  s1 : Int
  s2 : Int
deriving DecidableEq, Repr

/-- Component access of an integer point. -/
def comp (v : Int × Int × Int) : Nat → Int
  | 0 => v.1
  | 1 => v.2.1
  | _ => v.2.2

/-- Apply a rotation to an integer point. -/
def Rot.apply (r : Rot) (v : Int × Int × Int) : Int × Int × Int :=
  (r.s0 * comp v r.p0, r.s1 * comp v r.p1, r.s2 * comp v r.p2)

/-- The six axis permutations with their parities. -/
def perms3 : List (Nat × Nat × Nat × Int) :=
  [(0, 1, 2, 1), (1, 2, 0, 1), (2, 0, 1, 1), (0, 2, 1, -1), (2, 1, 0, -1), (1, 0, 2, -1)]

/-- The eight sign patterns. -/
def signs8 : List (Int × Int × Int) :=
  [(1, 1, 1), (1, 1, -1), (1, -1, 1), (1, -1, -1),
   (-1, 1, 1), (-1, 1, -1), (-1, -1, 1), (-1, -1, -1)]

/-- Modelled from the spec: the 24 rotations of the cube, i.e. the
signed axis permutations whose determinant (parity times product of
signs) is `+1`. -/
def rotationLUT : List Rot :=
  perms3.flatMap fun pp =>
    signs8.filterMap fun ss =>
      if pp.2.2.2 * ss.1 * ss.2.1 * ss.2.2 = 1 then
        some ⟨pp.1, pp.2.1, pp.2.2.1, ss.1, ss.2.1, ss.2.2⟩
      else none

/-- Minimum of a list of integers (seeded by the head). -/
def listMin (l : List Int) : Int := l.foldl min (l.headD 0)

/-- Maximum of a list of integers (seeded by the head). -/
def listMax (l : List Int) : Int := l.foldl max (l.headD 0)

/-- Modelled from the spec: `Rotations::rotate` applied to one cube.
The rotated points are translated so the minimum of every axis is zero
(the glossary's "non-negative octant with zero-aligned extents"), the
coordinates are sorted with the cube's `operator<` (as `expand` does via
`std::sort`), and the rotation is rejected — the source's "rotation
generated violating shape", returning an empty cube — when the rotated
extents are not ascending, since a Shape must satisfy dx ≤ dy ≤ dz. -/
def rotate (r : Rot) (cube : List XYZ) : Option (List XYZ) :=
  let pts := cube.map fun p => r.apply ((p.x : Int), (p.y : Int), (p.z : Int))
  let mx := listMin (pts.map (·.1))
  let my := listMin (pts.map (·.2.1))
  let mz := listMin (pts.map (·.2.2))
  let shifted : List XYZ := pts.map fun v =>
    ⟨(v.1 - mx).toNat, (v.2.1 - my).toNat, (v.2.2 - mz).toNat⟩
  let ex := listMax (pts.map (·.1)) - mx
  let ey := listMax (pts.map (·.2.1)) - my
  let ez := listMax (pts.map (·.2.2)) - mz
  if ex ≤ ey ∧ ey ≤ ez then some (sortJoined shifted) else none

end Rotations

/-- structs.hpp `Cube::operator<`, inner loop: first index whose
`joined` values differ decides. -/
def lexJoined : List XYZ → List XYZ → Bool
  | [], _ => false
  | _ :: _, [] => false
  | p :: ps, q :: qs =>
    if p.joined < q.joined then true
    else if q.joined < p.joined then false
    else lexJoined ps qs

/-- structs.hpp `Cube::operator<`: size first, then the `joined`
lexicographic loop. -/
def cubeLt (a b : List XYZ) : Bool :=
  if a.length ≠ b.length then a.length < b.length else lexJoined a b

/-- The loop body of the rotation scan in `expand` (cubes.cpp): keep
`rotatedCube` whenever there is no representative yet (`none_set`) or
`lowestHashCube < rotatedCube`. -/
def selectStep (acc : Option (List XYZ)) (rotated : List XYZ) : Option (List XYZ) :=
  match acc with
  | none => some rotated
  | some m => if cubeLt m rotated then some rotated else some m

/-- The full rotation scan of `expand` over the (sorted, valid) rotated
cubes, in LUT order. -/
def selectRepresentative (cands : List (List XYZ)) : Option (List XYZ) :=
  cands.foldl selectStep none

/-- The sorted candidates produced by the 24 rotations that do not
violate the shape, in LUT order (the `continue` of `expand` skips the
invalid ones). -/
def validRotationsOf (cube : List XYZ) : List (List XYZ) :=
  Rotations.rotationLUT.filterMap (Rotations.rotate · cube)

/-- An L-shaped tromino candidate (already zero-aligned, as `expand`
produces before the rotation scan). -/
def lTromino : List XYZ := [⟨0, 0, 0⟩, ⟨1, 0, 0⟩, ⟨0, 1, 0⟩]

theorem lexJoined_irrefl : ∀ a : List XYZ, lexJoined a a = false
  | [] => rfl
  | p :: ps => by
    simp only [lexJoined, Nat.lt_irrefl, if_false]
    exact lexJoined_irrefl ps

theorem lexJoined_trans : ∀ a b c : List XYZ,
    lexJoined a b = true → lexJoined b c = true → lexJoined a c = true
  | [], _, _ => by simp [lexJoined]
  | _ :: _, [], _ => by simp [lexJoined]
  | _ :: _, _ :: _, [] => by intro _ h; simp [lexJoined] at h
  | p :: ps, q :: qs, r :: rs => by
    intro hab hbc
    simp only [lexJoined] at hab hbc ⊢
    by_cases h1 : p.joined < q.joined
    · by_cases h2 : q.joined < r.joined
      · rw [if_pos (by omega : p.joined < r.joined)]
      · rw [if_neg h2] at hbc
        by_cases h2' : r.joined < q.joined
        · rw [if_pos h2'] at hbc; exact absurd hbc (by simp)
        · rw [if_pos (by omega : p.joined < r.joined)]
    · rw [if_neg h1] at hab
      by_cases h1' : q.joined < p.joined
      · rw [if_pos h1'] at hab; exact absurd hab (by simp)
      · rw [if_neg h1'] at hab
        by_cases h2 : q.joined < r.joined
        · rw [if_pos (by omega : p.joined < r.joined)]
        · rw [if_neg h2] at hbc
          by_cases h2' : r.joined < q.joined
          · rw [if_pos h2'] at hbc; exact absurd hbc (by simp)
          · rw [if_neg h2'] at hbc
            rw [if_neg (by omega : ¬p.joined < r.joined),
                if_neg (by omega : ¬r.joined < p.joined)]
            exact lexJoined_trans ps qs rs hab hbc

theorem lexJoined_negtrans : ∀ a b c : List XYZ,
    a.length = b.length → b.length = c.length →
    lexJoined a b = false → lexJoined b c = false → lexJoined a c = false
  | [], _, _ => by simp [lexJoined]
  | _ :: _, [], _ => by intro h; simp at h
  | _ :: _, _ :: _, [] => by intro _ h; simp at h
  | p :: ps, q :: qs, r :: rs => by
    intro hl1 hl2 hab hbc
    simp only [List.length_cons, Nat.add_right_cancel_iff] at hl1 hl2
    simp only [lexJoined] at hab hbc ⊢
    by_cases h1 : p.joined < q.joined
    · rw [if_pos h1] at hab; exact absurd hab (by simp)
    · rw [if_neg h1] at hab
      by_cases h2 : q.joined < r.joined
      · rw [if_pos h2] at hbc; exact absurd hbc (by simp)
      · rw [if_neg h2] at hbc
        rw [if_neg (by omega : ¬p.joined < r.joined)]
        by_cases h3 : r.joined < p.joined
        · rw [if_pos h3]
        · rw [if_neg h3]
          by_cases h4 : q.joined < p.joined
          · exact absurd h4 (by omega)
          · rw [if_neg h4] at hab
            by_cases h5 : r.joined < q.joined
            · exact absurd h5 (by omega)
            · rw [if_neg h5] at hbc
              exact lexJoined_negtrans ps qs rs hl1 hl2 hab hbc

theorem cubeLt_irrefl (a : List XYZ) : cubeLt a a = false := by
  simp [cubeLt, lexJoined_irrefl]

theorem cubeLt_trans (a b c : List XYZ) :
    cubeLt a b = true → cubeLt b c = true → cubeLt a c = true := by
  intro hab hbc
  simp only [cubeLt] at hab hbc ⊢
  by_cases e1 : a.length = b.length
  · rw [if_neg (by omega)] at hab
    by_cases e2 : b.length = c.length
    · rw [if_neg (by omega)] at hbc
      rw [if_neg (by omega)]
      exact lexJoined_trans a b c hab hbc
    · rw [if_pos (by omega)] at hbc
      simp only [decide_eq_true_eq] at hbc
      rw [if_pos (by omega : a.length ≠ c.length)]
      simp only [decide_eq_true_eq]
      omega
  · rw [if_pos (by omega)] at hab
    simp only [decide_eq_true_eq] at hab
    by_cases e2 : b.length = c.length
    · rw [if_neg (by omega)] at hbc
      rw [if_pos (by omega : a.length ≠ c.length)]
      simp only [decide_eq_true_eq]
      omega
    · rw [if_pos (by omega)] at hbc
      simp only [decide_eq_true_eq] at hbc
      rw [if_pos (by omega : a.length ≠ c.length)]
      simp only [decide_eq_true_eq]
      omega

theorem cubeLt_negtrans (a b c : List XYZ) :
    cubeLt a b = false → cubeLt b c = false → cubeLt a c = false := by
  intro hab hbc
  simp only [cubeLt] at hab hbc ⊢
  by_cases e1 : a.length = b.length
  · rw [if_neg (by omega)] at hab
    by_cases e2 : b.length = c.length
    · rw [if_neg (by omega)] at hbc
      rw [if_neg (by omega)]
      exact lexJoined_negtrans a b c e1 e2 hab hbc
    · rw [if_pos (by omega)] at hbc
      simp only [decide_eq_false_iff_not, not_lt] at hbc
      rw [if_pos (by omega : a.length ≠ c.length)]
      simp only [decide_eq_false_iff_not, not_lt]
      omega
  · rw [if_pos (by omega)] at hab
    simp only [decide_eq_false_iff_not, not_lt] at hab
    by_cases e2 : b.length = c.length
    · rw [if_pos (by omega : a.length ≠ c.length)]
      simp only [decide_eq_false_iff_not, not_lt]
      omega
    · rw [if_pos (by omega)] at hbc
      simp only [decide_eq_false_iff_not, not_lt] at hbc
      rw [if_pos (by omega : a.length ≠ c.length)]
      simp only [decide_eq_false_iff_not, not_lt]
      omega

/-- Invariant of `expand`'s rotation fold: the accumulator is never
lexicographically below any scanned candidate. -/
theorem selectStep_foldl_max : ∀ (l : List (List XYZ)) (a m : List XYZ),
    List.foldl selectStep (some a) l = some m →
    (m = a ∨ m ∈ l) ∧ cubeLt m a = false ∧ ∀ x ∈ l, cubeLt m x = false
  | [], a, m => by
    intro h
    simp only [List.foldl_nil, Option.some.injEq] at h
    subst h
    exact ⟨Or.inl rfl, cubeLt_irrefl a, by simp⟩
  | x :: xs, a, m => by
    intro h
    simp only [List.foldl_cons, selectStep] at h
    by_cases hax : cubeLt a x = true
    · rw [if_pos hax] at h
      obtain ⟨hmem, hmx, hall⟩ := selectStep_foldl_max xs x m h
      refine ⟨Or.inr (by cases hmem with
        | inl he => exact he ▸ List.mem_cons_self x xs
        | inr hi => exact List.mem_cons_of_mem x hi), ?_, ?_⟩
      · by_cases hma : cubeLt m a = true
        · have := cubeLt_trans m a x hma hax
          rw [this] at hmx
          exact absurd hmx (by simp)
        · simpa using hma
      · intro y hy
        cases List.mem_cons.mp hy with
        | inl he => exact he ▸ hmx
        | inr hi => exact hall y hi
    · rw [if_neg hax] at h
      obtain ⟨hmem, hma, hall⟩ := selectStep_foldl_max xs a m h
      have hax' : cubeLt a x = false := by simpa using hax
      refine ⟨by cases hmem with
        | inl he => exact Or.inl he
        | inr hi => exact Or.inr (List.mem_cons_of_mem x hi), hma, ?_⟩
      intro y hy
      cases List.mem_cons.mp hy with
      | inl he => exact he ▸ cubeLt_negtrans m a x hma hax'
      | inr hi => exact hall y hi

/-- C2 (amended): the representative that `expand` selects over the
valid rotations and inserts is the lexicographically *greatest* — no
valid rotation of the inserted cube is lexicographically greater than
it (not the least, as the claim states). -/
theorem c2_expand_selects_greatest (c m : List XYZ)
    (h : selectRepresentative (validRotationsOf c) = some m) :
    m ∈ validRotationsOf c ∧ ∀ r ∈ validRotationsOf c, cubeLt m r = false := by
  unfold selectRepresentative at h
  rcases hl : validRotationsOf c with _ | ⟨x, xs⟩
  · rw [hl] at h; simp at h
  · rw [hl] at h
    simp only [List.foldl_cons, selectStep] at h
    obtain ⟨hmem, hmx, hall⟩ := selectStep_foldl_max xs x m h
    refine ⟨by cases hmem with
      | inl he => exact he ▸ List.mem_cons_self x xs
      | inr hi => exact List.mem_cons_of_mem x hi, ?_⟩
    intro r hr
    cases List.mem_cons.mp hr with
    | inl he => exact he ▸ hmx
    | inr hi => exact hall r hi

/-- Witness: at the L-tromino the fold selects a representative, and it
is maximal among the valid rotations. -/
theorem c2_expand_selects_greatest_witness :
    [⟨0, 1, 0⟩, ⟨0, 0, 1⟩, ⟨0, 1, 1⟩] ∈ validRotationsOf lTromino ∧
    ∀ r ∈ validRotationsOf lTromino,
      cubeLt [⟨0, 1, 0⟩, ⟨0, 0, 1⟩, ⟨0, 1, 1⟩] r = false :=
  c2_expand_selects_greatest lTromino _ (by decide)

/-- C2 counterexample: for the L-tromino candidate, the representative
selected by `expand`'s rotation scan has a valid rotation that is
lexicographically smaller, so the inserted cube is not the
lexicographically least rotation. -/
theorem c2_claim_false_at_lTromino :
    selectRepresentative (validRotationsOf lTromino) =
      some [⟨0, 1, 0⟩, ⟨0, 0, 1⟩, ⟨0, 1, 1⟩] ∧
    [⟨0, 0, 0⟩, ⟨0, 1, 0⟩, ⟨0, 0, 1⟩] ∈ validRotationsOf lTromino ∧
    cubeLt [⟨0, 0, 0⟩, ⟨0, 1, 0⟩, ⟨0, 0, 1⟩] [⟨0, 1, 0⟩, ⟨0, 0, 1⟩, ⟨0, 1, 1⟩] = true := by
  refine ⟨by decide, by decide, by decide⟩

/-- hashes.hpp `Hashy::generateShapes(n)`: the triple loop
`for (x = 0; x < n; ++x) for (y = x; y < n - x; ++y)
for (z = y; z < n - x - y; ++z)` with the `continue` on
`(x+1)*(y+1)*(z+1) < n` ("not enough space for n cubes"). -/
def Hashy.generateShapes (n : Nat) : List (Nat × Nat × Nat) :=
  (List.range n).flatMap fun x =>
    (List.range' x ((n - x) - x)).flatMap fun y =>
      (List.range' y (((n - x) - y) - y)).filterMap fun z =>
        if (x + 1) * (y + 1) * (z + 1) < n then none else some (x, y, z)

theorem Hashy.mem_generateShapes (n x y z : Nat) :
    (x, y, z) ∈ Hashy.generateShapes n ↔
      x ≤ y ∧ y ≤ z ∧ x + y + z < n ∧ n ≤ (x + 1) * (y + 1) * (z + 1) := by
  simp only [Hashy.generateShapes, List.mem_flatMap, List.mem_filterMap, List.mem_range,
    List.mem_range'_1]
  constructor
  · rintro ⟨a, ha, b, ⟨hb1, hb2⟩, c, ⟨hc1, hc2⟩, hsome⟩
    by_cases hv : (a + 1) * (b + 1) * (c + 1) < n
    · rw [if_pos hv] at hsome; exact absurd hsome (by simp)
    · rw [if_neg hv] at hsome
      obtain ⟨rfl, rfl, rfl⟩ : a = x ∧ b = y ∧ c = z := by
        simpa [Prod.ext_iff] using hsome
      exact ⟨hb1, hc1, by omega, Nat.not_lt.mp hv⟩
  · rintro ⟨h1, h2, h3, h4⟩
    refine ⟨x, by omega, y, ⟨h1, by omega⟩, z, ⟨h2, by omega⟩, ?_⟩
    rw [if_neg (Nat.not_lt.mpr h4)]

theorem Hashy.genShapes_inner_comps (n x y : Nat) (t : Nat × Nat × Nat)
    (h : t ∈ (List.range' y (((n - x) - y) - y)).filterMap
          fun z => if (x + 1) * (y + 1) * (z + 1) < n then none else some (x, y, z)) :
    t.1 = x ∧ t.2.1 = y := by
  simp only [List.mem_filterMap] at h
  obtain ⟨z, _, hsome⟩ := h
  split_ifs at hsome
  all_goals cases hsome
  all_goals exact ⟨rfl, rfl⟩

theorem Hashy.genShapes_mid_comp (n x : Nat) (t : Nat × Nat × Nat)
    (h : t ∈ (List.range' x ((n - x) - x)).flatMap fun y =>
          (List.range' y (((n - x) - y) - y)).filterMap
            fun z => if (x + 1) * (y + 1) * (z + 1) < n then none else some (x, y, z)) :
    t.1 = x := by
  simp only [List.mem_flatMap] at h
  obtain ⟨y, _, hy⟩ := h
  exact (Hashy.genShapes_inner_comps n x y t hy).1

theorem Hashy.generateShapes_nodup (n : Nat) : (Hashy.generateShapes n).Nodup := by
  unfold Hashy.generateShapes
  rw [List.nodup_flatMap]
  constructor
  · intro x _
    rw [List.nodup_flatMap]
    constructor
    · intro y _
      apply List.Nodup.filterMap
      · intro a a' b hb hb'
        rw [Option.mem_def] at hb hb'
        by_cases h1 : (x + 1) * (y + 1) * (a + 1) < n
        · rw [if_pos h1] at hb; simp at hb
        · rw [if_neg h1] at hb
          by_cases h2 : (x + 1) * (y + 1) * (a' + 1) < n
          · rw [if_pos h2] at hb'; simp at hb'
          · rw [if_neg h2] at hb'
            cases hb
            exact (by simpa using hb' : a' = a).symm
      · exact List.nodup_range' _ _
    · refine (List.nodup_range' _ _).imp ?_
      intro y y' hne t ht ht'
      have h1 := (Hashy.genShapes_inner_comps n x y t ht).2
      have h2 := (Hashy.genShapes_inner_comps n x y' t ht').2
      exact hne (h1 ▸ h2 ▸ rfl)
  · refine (List.nodup_range n).imp ?_
    intro x x' hne t ht ht'
    have h1 := Hashy.genShapes_mid_comp n x t ht
    have h2 := Hashy.genShapes_mid_comp n x' t ht'
    exact hne (h1 ▸ h2 ▸ rfl)

/-- C6 counterexample: for n = 4, the triple (1, 1, 2) satisfies every
condition of the claim — 1 ≤ 1 ≤ 2, each axis in [0, 4), and
(1+1)·(1+1)·(2+1) = 12 ≥ 4 — yet `generateShapes(4)` does not contain
it (the loop bound `z < n - x - y` additionally requires
x + y + z < n). -/
theorem c6_claim_false_at_n4 :
    ¬((1, 1, 2) ∈ Hashy.generateShapes 4) ∧
    (1 ≤ 1 ∧ 1 ≤ 2 ∧ 1 < 4 ∧ 2 < 4 ∧ 4 ≤ (1 + 1) * (1 + 1) * (2 + 1)) := by
  exact ⟨by decide, by decide⟩

/-- C6 (amended): `Hashy::generateShapes(n)` returns exactly the triples
(x, y, z) with x ≤ y ≤ z, x + y + z < n (which puts each axis in [0, n)),
and (x+1)(y+1)(z+1) ≥ n, each appearing exactly once. -/
theorem c6_generateShapes_exact (n x y z : Nat) :
    ((x, y, z) ∈ Hashy.generateShapes n ↔
      x ≤ y ∧ y ≤ z ∧ x + y + z < n ∧ n ≤ (x + 1) * (y + 1) * (z + 1)) ∧
    (Hashy.generateShapes n).Nodup :=
  ⟨Hashy.mem_generateShapes n x y z, Hashy.generateShapes_nodup n⟩

/-- cubeSwapSet (allocate-based variant): state of a `CubeStorage`.
`fileData` is the backing file as an association list from byte offset
to the record written there (`m_cube_size * sizeof(XYZ)` bytes, and
`sizeof(XYZ) = 3`); a prepended pair overwrites an earlier one at the
same offset.  `allocSeek`/`prevSeek` are `m_alloc_seek`/`m_prev_seek`. -/
structure StorageAM where
  cubeSize : Nat
  fileData : List (Nat × List XYZ)
  prevSeek : Nat
  allocSeek : Nat
deriving Repr, DecidableEq

/-- `CubeStorage::allocate(cube)`: write the cube's
`m_cube_size * sizeof(XYZ)` bytes at `m_alloc_seek`, remember
`m_prev_seek`, advance the cursor, return the `CubePtr` offset. -/
def StorageAM.allocate (st : StorageAM) (c : List XYZ) : StorageAM × Nat :=
  (⟨st.cubeSize, (st.allocSeek, c.take st.cubeSize) :: st.fileData,
    st.allocSeek, st.allocSeek + st.cubeSize * 3⟩, st.allocSeek)

/-- `CubeStorage::cancel_allocation()`: rewind `m_alloc_seek` by one
record if possible. -/
def StorageAM.cancel_allocation (st : StorageAM) : StorageAM :=
  if st.allocSeek ≥ st.cubeSize * 3 then
    ⟨st.cubeSize, st.fileData, st.prevSeek, st.allocSeek - st.cubeSize * 3⟩
  else st

/-- `CubeStorage::read(CubePtr)` (allocate-based variant, no
read-cache): read one record at the pointer's offset; bytes never
written read back as zeroes from the grown mapping. -/
def StorageAM.read (st : StorageAM) (p : Nat) : List XYZ :=
  (st.fileData.lookup p).getD (List.replicate st.cubeSize ⟨0, 0, 0⟩)

/-- hashes.hpp `Subsubhashy` (swap-set variant): the `CubeSwapSet` is
the list of inserted `CubePtr` offsets, resolved through `set_storage`. -/
structure SubsubhashyM where
  set_storage : StorageAM
  set : List Nat
deriving Repr, DecidableEq

/-- hashes.hpp `Subsubhashy::insert`: allocate the candidate, emplace
the returned `CubePtr` — the `CubeSwapSet` accepts it iff no existing
member dereferences (through `CubePtrEqual`, i.e. `CubeStorage::read`
on both sides) to an equal cube — and `cancel_allocation()` when the
emplace found a duplicate. -/
def SubsubhashyM.insert (s : SubsubhashyM) (c : List XYZ) : SubsubhashyM :=
  let stp := s.set_storage.allocate c
  if s.set.any (fun q => StorageAM.read stp.1 q == StorageAM.read stp.1 stp.2) then
    ⟨stp.1.cancel_allocation, s.set⟩
  else
    ⟨stp.1, stp.2 :: s.set⟩

/-- hashes.hpp `Subsubhashy::size`: the element count of the set. -/
def SubsubhashyM.size (s : SubsubhashyM) : Nat := s.set.length

theorem lookup_cons_of_ne {β : Type} (k k' : Nat) (v : β) (l : List (Nat × β)) (h : k ≠ k') :
    List.lookup k ((k', v) :: l) = List.lookup k l := by
  have hb : (k == k') = false := beq_eq_false_iff_ne.mpr h
  simp [List.lookup, hb]

theorem lookup_cons_self {β : Type} (k : Nat) (v : β) (l : List (Nat × β)) :
    List.lookup k ((k, v) :: l) = some v := by
  simp [List.lookup]

/-- C3 helper and C4 helper: a freshly written record reads back. -/
theorem StorageAM.read_write_self (N s0 : Nat) (f : List (Nat × List XYZ)) (pv sk : Nat)
    (c : List XYZ) : StorageAM.read ⟨N, (s0, c) :: f, pv, sk⟩ s0 = c := by
  simp [StorageAM.read, lookup_cons_self]

/-- Reading below a prepended record is unaffected by it. -/
theorem StorageAM.read_write_other (N s0 q : Nat) (f : List (Nat × List XYZ)) (pv sk pv' sk' : Nat)
    (c : List XYZ) (h : q ≠ s0) :
    StorageAM.read ⟨N, (s0, c) :: f, pv, sk⟩ q = StorageAM.read ⟨N, f, pv', sk'⟩ q := by
  simp only [StorageAM.read, lookup_cons_of_ne q s0 c f h]

/-- C4: inserting the same cube twice into a `Subsubhashy` leaves
`size()` unchanged after the second insert — the duplicate is found by
the storage-dereferencing equality and its speculative allocation is
cancelled.  The hypotheses state the reachable-state invariants: every
member's offset lies below the append cursor, the cube's length equals
the storage record size, and the record size is positive. -/
theorem c4_subsubhashy_insert_idempotent (s : SubsubhashyM) (c : List XYZ)
    (hwf : ∀ q ∈ s.set, q < s.set_storage.allocSeek)
    (hN : c.length = s.set_storage.cubeSize)
    (hpos : 0 < s.set_storage.cubeSize) :
    (SubsubhashyM.insert (SubsubhashyM.insert s c) c).size = (SubsubhashyM.insert s c).size := by
  obtain ⟨⟨N, f0, pv, s0⟩, set0⟩ := s
  simp only at hwf hN hpos
  have hc : c.take N = c := by rw [← hN]; exact List.take_length c
  by_cases h1 : (set0.any fun q =>
      StorageAM.read ⟨N, (s0, c) :: f0, s0, s0 + N * 3⟩ q ==
        StorageAM.read ⟨N, (s0, c) :: f0, s0, s0 + N * 3⟩ s0) = true
  · have e1 : SubsubhashyM.insert ⟨⟨N, f0, pv, s0⟩, set0⟩ c =
        ⟨⟨N, (s0, c) :: f0, s0, s0⟩, set0⟩ := by
      simp only [SubsubhashyM.insert, StorageAM.allocate, hc]
      rw [if_pos h1]
      simp [StorageAM.cancel_allocation, Nat.le_add_left, Nat.add_sub_cancel]
    rw [e1]
    obtain ⟨q, hq_mem, hq_eq⟩ := List.any_eq_true.mp h1
    have hq_lt : q < s0 := hwf q hq_mem
    have hq_read : StorageAM.read ⟨N, (s0, c) :: f0, s0, s0 + N * 3⟩ q = c := by
      have := (beq_iff_eq).mp hq_eq
      rwa [StorageAM.read_write_self] at this
    have h2 : (set0.any fun q =>
        StorageAM.read ⟨N, (s0, c) :: (s0, c) :: f0, s0, s0 + N * 3⟩ q ==
          StorageAM.read ⟨N, (s0, c) :: (s0, c) :: f0, s0, s0 + N * 3⟩ s0) = true := by
      refine List.any_eq_true.mpr ⟨q, hq_mem, ?_⟩
      rw [StorageAM.read_write_self]
      rw [StorageAM.read_write_other N s0 q ((s0, c) :: f0) s0 (s0 + N * 3) s0 (s0 + N * 3) c
        (by omega)]
      exact beq_iff_eq.mpr hq_read
    have e2 : SubsubhashyM.insert ⟨⟨N, (s0, c) :: f0, s0, s0⟩, set0⟩ c =
        ⟨⟨N, (s0, c) :: (s0, c) :: f0, s0, s0⟩, set0⟩ := by
      simp only [SubsubhashyM.insert, StorageAM.allocate, hc]
      rw [if_pos h2]
      simp [StorageAM.cancel_allocation, Nat.le_add_left, Nat.add_sub_cancel]
    rw [e2]
    rfl
  · have e1 : SubsubhashyM.insert ⟨⟨N, f0, pv, s0⟩, set0⟩ c =
        ⟨⟨N, (s0, c) :: f0, s0, s0 + N * 3⟩, s0 :: set0⟩ := by
      simp only [SubsubhashyM.insert, StorageAM.allocate, hc]
      rw [if_neg h1]
    rw [e1]
    have hne : s0 ≠ s0 + N * 3 := by omega
    have h2 : ((s0 :: set0).any fun q =>
        StorageAM.read ⟨N, (s0 + N * 3, c) :: (s0, c) :: f0, s0 + N * 3,
            s0 + N * 3 + N * 3⟩ q ==
          StorageAM.read ⟨N, (s0 + N * 3, c) :: (s0, c) :: f0, s0 + N * 3,
            s0 + N * 3 + N * 3⟩ (s0 + N * 3)) = true := by
      refine List.any_eq_true.mpr ⟨s0, List.mem_cons_self s0 set0, ?_⟩
      rw [StorageAM.read_write_self]
      rw [StorageAM.read_write_other N (s0 + N * 3) s0 ((s0, c) :: f0) (s0 + N * 3)
        (s0 + N * 3 + N * 3) 0 0 c hne]
      rw [StorageAM.read_write_self]
      exact beq_iff_eq.mpr rfl
    have e2 : SubsubhashyM.insert ⟨⟨N, (s0, c) :: f0, s0, s0 + N * 3⟩, s0 :: set0⟩ c =
        ⟨⟨N, (s0 + N * 3, c) :: (s0, c) :: f0, s0 + N * 3, s0 + N * 3⟩, s0 :: set0⟩ := by
      simp only [SubsubhashyM.insert, StorageAM.allocate, hc]
      rw [if_pos h2]
      simp [StorageAM.cancel_allocation, Nat.le_add_left, Nat.add_sub_cancel]
    rw [e2]
    rfl

/-- Witness for C4: a concrete empty shard, record size 1, inserting the
single-cell cube twice. -/
theorem c4_subsubhashy_insert_idempotent_witness :
    (SubsubhashyM.insert (SubsubhashyM.insert ⟨⟨1, [], 0, 0⟩, []⟩ [⟨0, 0, 0⟩]) [⟨0, 0, 0⟩]).size =
      (SubsubhashyM.insert ⟨⟨1, [], 0, 0⟩, []⟩ [⟨0, 0, 0⟩]).size :=
  c4_subsubhashy_insert_idempotent ⟨⟨1, [], 0, 0⟩, []⟩ [⟨0, 0, 0⟩]
    (by intro q hq; cases hq) rfl (by decide)

/-- cubeSwapSet.cpp `ThreadCache::entry`: the read-cache key
(storage pointer — modelled as a storage id — file offset, and storage
version). -/
structure CacheKey where
  sid : Nat
  seek : Nat
  version : Nat
deriving DecidableEq, Repr

/-- cubeSwapSet.cpp `ThreadCache`: the per-thread LRU list (front =
least recently used), the map from key to cached cube, and the
`local_enabled`/`local_seek`/`local` staging slot. -/
structure ThreadCacheM where
  lru : List CacheKey
  cache : List (CacheKey × List XYZ)
  local_enabled : Bool
  local_seek : Nat
  localCube : List XYZ
deriving Repr, DecidableEq

/-- cubeSwapSet (local/commit variant): state of a `CubeStorage` —
identity, `m_cube_size`, whether `m_file` is non-null, the backing file
(association list from byte offset to one record), `m_alloc_seek`, and
`m_storage_version`. -/
structure StorageBM where
  sid : Nat
  cubeSize : Nat
  fileOpen : Bool
  fileData : List (Nat × List XYZ)
  allocSeek : Nat
  version : Nat
deriving Repr, DecidableEq

/-- `CubeStorage::local(cube)` (the source name `local` is a reserved
word in Lean): stage the cube in the thread-local slot at the current
append cursor and return the provisional `CubePtr` offset. -/
def StorageBM.localStage (st : StorageBM) (tc : ThreadCacheM) (c : List XYZ) :
    ThreadCacheM × Nat :=
  (⟨tc.lru, tc.cache, true, st.allocSeek, c⟩, st.allocSeek)

/-- `CubeStorage::commit()`: open the file if needed, clear
`local_enabled`, write the staged record
(`m_cube_size * sizeof(XYZ)` bytes of `ctx.local`) at `m_alloc_seek`,
and advance the cursor. -/
def StorageBM.commit (st : StorageBM) (tc : ThreadCacheM) : StorageBM × ThreadCacheM :=
  (⟨st.sid, st.cubeSize, true,
    (st.allocSeek, tc.localCube.take st.cubeSize) :: st.fileData,
    st.allocSeek + st.cubeSize * 3, st.version⟩,
   ⟨tc.lru, tc.cache, false, tc.local_seek, tc.localCube⟩)

/-- `CubeStorage::drop()`: discard the staged slot
(`local_enabled = false`, `local_seek = -1`, modelled as an unused
sentinel value). -/
def StorageBM.drop (tc : ThreadCacheM) : ThreadCacheM :=
  ⟨tc.lru, tc.cache, false, tc.local_seek, tc.localCube⟩

/-- Position of a key in the LRU list (the `std::list` iterator held by
the cache entry). -/
def lruIdx (key : CacheKey) : List CacheKey → Nat
  | [] => 0
  | k :: ks => if k = key then 0 else lruIdx key ks + 1

/-- Eviction of the least-recently-used entry
(`ctx.cache.erase(ctx.cache.find(ctx.lru.front())); ctx.lru.pop_front()`). -/
def ThreadCacheM.evictFront (tc : ThreadCacheM) : ThreadCacheM :=
  match tc.lru with
  | [] => tc
  | k :: rest => ⟨rest, tc.cache.eraseP (fun kv => kv.1 == k), tc.local_enabled,
      tc.local_seek, tc.localCube⟩

/-- `CubeStorage::read(CubePtr)` (cache variant).  Returns the cube and
the updated thread cache, or `none` where the C++ execution is
undefined: on a cache hit whose entry is not the LRU tail the source
calls `ctx.lru.splice(itr->second.lru, ctx.lru, ctx.lru.end())`, whose
third argument must be a dereferenceable iterator but is `end()`
(undefined behaviour — the comment says it moves the element to the
back of the list, but the arguments are reversed); on a cache miss with
`m_file` null (after `discard()`), `m_file->readAt` dereferences a null
pointer. -/
def StorageBM.read (st : StorageBM) (tc : ThreadCacheM) (seek : Nat) :
    Option (List XYZ × ThreadCacheM) :=
  if tc.local_enabled ∧ seek = tc.local_seek then some (tc.localCube, tc)
  else
    let key : CacheKey := ⟨st.sid, seek, st.version⟩
    match tc.cache.lookup key with
    | some cb =>
      if lruIdx key tc.lru + 1 ≠ tc.lru.length then none
      else some (cb, tc)
    | none =>
      if st.fileOpen = false then none
      else
        let tc1 := if tc.cache.length ≥ 1024 then tc.evictFront else tc
        let cb := (st.fileData.lookup seek).getD (List.replicate st.cubeSize ⟨0, 0, 0⟩)
        some (cb, ⟨tc1.lru ++ [key], (key, cb) :: tc1.cache, tc1.local_enabled,
          tc1.local_seek, tc1.localCube⟩)

/-- `CubeStorage::discard()`: when the file is open, drop the handle,
reset the cursor and increment `m_storage_version` so that every
outstanding read-cache entry (keyed with the previous version) can
never be hit again. -/
def StorageBM.discard (st : StorageBM) : StorageBM :=
  if st.fileOpen then ⟨st.sid, st.cubeSize, false, st.fileData, 0, st.version + 1⟩
  else st

theorem lookup_eq_none_of_keys_ne {β : Type} (k : CacheKey) :
    ∀ l : List (CacheKey × β), (∀ kv ∈ l, kv.1 ≠ k) → l.lookup k = none
  | [], _ => rfl
  | kv :: t, h => by
    have hne : (k == kv.1) = false :=
      beq_eq_false_iff_ne.mpr fun he => (h kv (List.mem_cons_self kv t)) he.symm
    simp only [List.lookup, hne]
    exact lookup_eq_none_of_keys_ne k t fun x hx => h x (List.mem_cons_of_mem kv hx)

/-- C3: staging a cube with `local(c)`, committing it, and reading back
through the returned `CubePtr` yields the cube itself, coordinate for
coordinate.  Hypotheses: the cube's length equals the storage record
size (asserted by the source), and the calling thread's read-cache has
no entry for the committed key (a fresh key: the offset had never been
read by this thread at this storage version). -/
theorem c3_local_commit_read_roundtrip (st : StorageBM) (tc : ThreadCacheM) (c : List XYZ)
    (hN : c.length = st.cubeSize)
    (hmiss : tc.cache.lookup ⟨st.sid, st.allocSeek, st.version⟩ = none) :
    (StorageBM.read (StorageBM.commit st (StorageBM.localStage st tc c).1).1
        (StorageBM.commit st (StorageBM.localStage st tc c).1).2
        (StorageBM.localStage st tc c).2).map Prod.fst = some c := by
  obtain ⟨sid, N, fo, f0, s0, ver⟩ := st
  obtain ⟨lru0, cache0, le0, ls0, lc0⟩ := tc
  simp only at hN hmiss
  have hc : c.take N = c := by rw [← hN]; exact List.take_length c
  simp only [StorageBM.localStage, StorageBM.commit, StorageBM.read, hc]
  rw [if_neg (by simp)]
  rw [hmiss]
  simp [lookup_cons_self]

/-- Witness for C3 at a concrete storage, thread cache and cube. -/
theorem c3_local_commit_read_roundtrip_witness :
    (StorageBM.read
        (StorageBM.commit ⟨0, 1, false, [], 0, 0⟩
          (StorageBM.localStage ⟨0, 1, false, [], 0, 0⟩ ⟨[], [], false, 0, []⟩ [⟨1, 2, 3⟩]).1).1
        (StorageBM.commit ⟨0, 1, false, [], 0, 0⟩
          (StorageBM.localStage ⟨0, 1, false, [], 0, 0⟩ ⟨[], [], false, 0, []⟩ [⟨1, 2, 3⟩]).1).2
        (StorageBM.localStage ⟨0, 1, false, [], 0, 0⟩ ⟨[], [], false, 0, []⟩ [⟨1, 2, 3⟩]).2).map
      Prod.fst = some [⟨1, 2, 3⟩] :=
  c3_local_commit_read_roundtrip ⟨0, 1, false, [], 0, 0⟩ ⟨[], [], false, 0, []⟩ [⟨1, 2, 3⟩]
    rfl rfl

/-- C5: after `discard()`, a read through any `CubePtr` obtained before
the discard misses the thread-local read-cache — its lookup key carries
the incremented storage version, while every entry made before the
discard carries an older version — and the read is then treated as
invalid (the storage's file handle is closed), never returning a value
cached under the previous version.  Hypotheses: the file was open (the
discard that increments the version), every cache entry for this
storage predates the discard, and no staged `local()` slot is pending
(the insert protocol pairs `local` with `commit`/`drop` under the shard
lock). -/
theorem c5_discard_read_no_resurrection (st : StorageBM) (tc : ThreadCacheM) (seek : Nat)
    (hopen : st.fileOpen = true)
    (hstale : ∀ kv ∈ tc.cache, kv.1.sid = st.sid → kv.1.version ≤ st.version)
    (hlocal : tc.local_enabled = false) :
    tc.cache.lookup ⟨st.discard.sid, seek, st.discard.version⟩ = none ∧
    StorageBM.read st.discard tc seek = none := by
  have hdis : st.discard = ⟨st.sid, st.cubeSize, false, st.fileData, 0, st.version + 1⟩ := by
    simp [StorageBM.discard, hopen]
  have hnone : tc.cache.lookup (⟨st.sid, seek, st.version + 1⟩ : CacheKey) = none := by
    apply lookup_eq_none_of_keys_ne
    intro kv hkv he
    have h1 := hstale kv hkv
    rw [he] at h1
    exact Nat.not_succ_le_self st.version (h1 rfl)
  constructor
  · rw [hdis]
    exact hnone
  · rw [hdis]
    simp only [StorageBM.read]
    rw [if_neg (by simp [hlocal])]
    rw [hnone]
    simp

/-- Witness for C5 at a concrete storage with one stale cache entry. -/
theorem c5_discard_read_no_resurrection_witness :
    (⟨[⟨0, 0, 0⟩], [(⟨0, 0, 0⟩, [⟨7, 7, 7⟩])], false, 0, []⟩ : ThreadCacheM).cache.lookup
        ⟨(StorageBM.discard ⟨0, 1, true, [(0, [⟨7, 7, 7⟩])], 3, 0⟩).sid, 0,
          (StorageBM.discard ⟨0, 1, true, [(0, [⟨7, 7, 7⟩])], 3, 0⟩).version⟩ = none ∧
    StorageBM.read (StorageBM.discard ⟨0, 1, true, [(0, [⟨7, 7, 7⟩])], 3, 0⟩)
      ⟨[⟨0, 0, 0⟩], [(⟨0, 0, 0⟩, [⟨7, 7, 7⟩])], false, 0, []⟩ 0 = none := by
  have h := c5_discard_read_no_resurrection ⟨0, 1, true, [(0, [⟨7, 7, 7⟩])], 3, 0⟩
    ⟨[⟨0, 0, 0⟩], [(⟨0, 0, 0⟩, [⟨7, 7, 7⟩])], false, 0, []⟩ 0 rfl
    (by intro kv hkv _; fin_cases hkv; decide) rfl
  exact ⟨h.1, h.2⟩

/-- A storage with two committed records, and a thread cache holding
both records with the first key at the LRU head. -/
def c9Storage : StorageBM :=
  ⟨0, 1, true, [(0, [⟨0, 0, 0⟩]), (3, [⟨0, 0, 1⟩])], 6, 0⟩

/-- The companion thread cache: two entries, LRU order [offset 0,
offset 3]. -/
def c9Cache : ThreadCacheM :=
  ⟨[⟨0, 0, 0⟩, ⟨0, 3, 0⟩], [(⟨0, 0, 0⟩, [⟨0, 0, 0⟩]), (⟨0, 3, 0⟩, [⟨0, 0, 1⟩])], false, 0, []⟩

/-- C9: on a cache hit whose entry is not already the LRU tail, the
source does not move the entry to the tail: it calls
`ctx.lru.splice(itr->second.lru, ctx.lru, ctx.lru.end())` — the
arguments reversed from the intended
`splice(ctx.lru.end(), ctx.lru, itr->second.lru)` — which asks to
transfer the non-dereferenceable `end()` sentinel and is undefined
behaviour, contradicting the comment above it ("LRU policy simply moves
the element at back of the list").  Evaluating the embedding: the key
for offset 0 is present in the cache (a hit) and sits at the LRU head
(not the tail), and `read` reaches the undefined splice. -/
theorem c9_lru_hit_splice_is_undefined :
    c9Cache.cache.lookup ⟨0, 0, 0⟩ = some [⟨0, 0, 0⟩] ∧
    c9Cache.lru.length = 2 ∧ lruIdx ⟨0, 0, 0⟩ c9Cache.lru = 0 ∧
    StorageBM.read c9Storage c9Cache 0 = none := by
  refine ⟨rfl, rfl, rfl, ?_⟩
  decide

/-- newCache.hpp `cacheformat::MAGIC` = 'PCUB'. -/
def cacheformat.MAGIC : Nat := 0x42554350

/-- newCache.hpp `cacheformat::XYZ_SIZE`. -/
def cacheformat.XYZ_SIZE : Nat := 3

/-- newCache.hpp `cacheformat::ShapeEntry`: three dimension bytes, the
(possibly bogus) stored payload offset, and the payload size in bytes. -/
structure ShapeEntryM where
  dim0 : Nat
  dim1 : Nat
  dim2 : Nat
  offset : Nat
  size : Nat
deriving DecidableEq, Repr

/-- A cache file as mapped by `CacheReader::loadFile`: the header fields
`magic`, `n`, `numPolycubes`, the shape table (whose length is the
header's `numShapes`), and the file's actual byte size. -/
structure CacheFileImage where
  magic : Nat
  n : Nat
  numPolycubes : Nat
  entries : List ShapeEntryM
  fileSize : Nat
deriving DecidableEq, Repr

/-- `sizeof(cacheformat::Header)`: 4 + 4 + 4 bytes of `uint32_t`, 4
padding bytes for the 8-byte alignment of `numPolycubes`, then 8 bytes
— the end seek of the header struct-region. -/
def headerEndSeek : Nat := 24

/-- `sizeof(cacheformat::ShapeEntry)`: 4 dimension/reserved bytes, 4
padding bytes, two `uint64_t`. -/
def shapeEntrySize : Nat := 24

/-- End seek of the shape-table array-region. -/
def shapeTableEndSeek (f : CacheFileImage) : Nat :=
  headerEndSeek + shapeEntrySize * f.entries.length

/-- The `datasize` accumulation of `CacheReader::loadFile`:
`for (i = 0; i < numShapes; ++i) datasize += shapes[i].size`. -/
def sumSizes (l : List ShapeEntryM) : Nat := (l.map (·.size)).sum

/-- Result of `CacheReader::loadFile`: its return value, the
`fileLoaded_` flag, and whether the non-fatal size-mismatch warning was
printed. -/
structure LoadResult where
  ret : Nat
  fileLoaded : Bool
  warned : Bool
deriving DecidableEq, Repr

/-- `CacheReader::loadFile` over a file image (`none` when the file
cannot be opened): fails with 1 and stays unloaded when the open fails
or the magic differs; otherwise warns — only — on
`file.size != shapes.end + datasize` and completes with 0 and
`fileLoaded_ = true`. -/
def CacheReader.loadFile (f : Option CacheFileImage) : LoadResult :=
  match f with
  | none => ⟨1, false, false⟩
  | some g =>
    if g.magic ≠ cacheformat.MAGIC then ⟨1, false, false⟩
    else ⟨0, true, decide (g.fileSize ≠ shapeTableEndSeek g + sumSizes g.entries)⟩

/-- The spec's failure condition for C7, stated from its words: loading
fails exactly when "the file cannot be opened or its magic field
differs from 0x42554350". -/
def loadFails (f : Option CacheFileImage) : Bool :=
  match f with
  | none => true
  | some g => decide (g.magic ≠ cacheformat.MAGIC)

/-- The spec's warning condition: the actual file size differs from the
shape-table end plus the sum of the shape size fields. -/
def sizeMismatch (f : Option CacheFileImage) : Bool :=
  match f with
  | none => false
  | some g => decide (g.fileSize ≠ shapeTableEndSeek g + sumSizes g.entries)

/-- C7: `loadFile` returns a nonzero result with the reader left
unloaded exactly when the file cannot be opened or the magic mismatches;
a size mismatch is only a warning, after which the load completes with
result 0 and the file marked loaded. -/
theorem c7_loadFile_failure_exactly_open_or_magic (f : Option CacheFileImage) :
    (decide ((CacheReader.loadFile f).ret ≠ 0) = loadFails f) ∧
    ((CacheReader.loadFile f).fileLoaded = !loadFails f) ∧
    ((CacheReader.loadFile f).warned = (!loadFails f && sizeMismatch f)) := by
  cases f with
  | none => exact ⟨rfl, rfl, rfl⟩
  | some g =>
    by_cases h : g.magic = cacheformat.MAGIC
    · simp [CacheReader.loadFile, loadFails, sizeMismatch, h]
    · simp [CacheReader.loadFile, loadFails, sizeMismatch, h]

/-- newCache.hpp `ShapeRange` as constructed by
`CacheReader::getCubesByShape`: begin/end pointers into the mapped XYZ
region (as XYZ-unit indices, `none` for `nullptr`), the computed
`size_`, the cube length and the shape dims. -/
structure ShapeRangeM where
  b : Option Nat
  e : Option Nat
  size : Nat
  cubeLen : Nat
  shape : XYZ
deriving DecidableEq, Repr

/-- `std::distance(start, stop)` on the XYZ pointers (0 for two null
pointers). -/
def distancePtr (b e : Option Nat) : Nat :=
  match b, e with
  | some bb, some ee => ee - bb
  | _, _ => 0

/-- The `ShapeRange` constructor: its initializer list computes
`size_(std::distance(start, stop) / _cubeLen)`, which divides by zero —
undefined behaviour, modelled as `none` — whenever `_cubeLen` is 0. -/
def mkShapeRange (b e : Option Nat) (cubeLen : Nat) (shape : XYZ) : Option ShapeRangeM :=
  if cubeLen = 0 then none
  else some ⟨b, e, distancePtr b e / cubeLen, cubeLen, shape⟩

/-- `CacheReader::getCubesByShape(i)`: `none` for the reader models the
unloaded state, where the dummy header makes `numShapes` 0.  Out-of-range
indices return `ShapeRange{nullptr, nullptr, 0, XYZ(0,0,0)}`; an empty
shape returns `ShapeRange{nullptr, nullptr, header->n, dims}`; otherwise
the payload start is recomputed as the cumulative sum of the size fields
of the entries before `i` (the stored `offset` field is ignored). -/
def CacheReader.getCubesByShape (rdr : Option CacheFileImage) (i : Nat) : Option ShapeRangeM :=
  match rdr with
  | none => mkShapeRange none none 0 ⟨0, 0, 0⟩
  | some f =>
    if i ≥ f.entries.length then mkShapeRange none none 0 ⟨0, 0, 0⟩
    else
      let e := f.entries.getD i ⟨0, 0, 0, 0, 0⟩
      if e.size = 0 then mkShapeRange none none f.n ⟨e.dim0, e.dim1, e.dim2⟩
      else
        let off := sumSizes (f.entries.take i)
        let index := off / cacheformat.XYZ_SIZE
        let num := e.size / cacheformat.XYZ_SIZE
        mkShapeRange (some index) (some (index + num)) f.n ⟨e.dim0, e.dim1, e.dim2⟩

/-- The offset-free view of a shape entry (dims and size). -/
def ShapeEntryM.eraseOffset (e : ShapeEntryM) : Nat × Nat × Nat × Nat :=
  (e.dim0, e.dim1, e.dim2, e.size)

/-- Rewriting every stored offset (with an arbitrary function `g`)
leaves each indexed entry's dims and size unchanged. -/
theorem mapOffsets_getD (g : ShapeEntryM → Nat) :
    ∀ (l : List ShapeEntryM) (i : Nat),
      ((l.map fun e => (⟨e.dim0, e.dim1, e.dim2, g e, e.size⟩ : ShapeEntryM)).getD i
          ⟨0, 0, 0, 0, 0⟩).eraseOffset = (l.getD i ⟨0, 0, 0, 0, 0⟩).eraseOffset
  | [], _ => rfl
  | _ :: _, 0 => rfl
  | _ :: t, i + 1 => mapOffsets_getD g t i

/-- Rewriting offsets leaves the size accumulation unchanged. -/
theorem mapOffsets_sumSizes (g : ShapeEntryM → Nat) :
    ∀ l : List ShapeEntryM,
      sumSizes (l.map fun e => (⟨e.dim0, e.dim1, e.dim2, g e, e.size⟩ : ShapeEntryM)) = sumSizes l
  | [] => rfl
  | e :: t => by
    have ih := mapOffsets_sumSizes g t
    simp only [sumSizes, List.map_cons, List.sum_cons, List.map_map] at ih ⊢
    rw [ih]

/-- C8: for a loaded reader, a shape index in range with a nonzero size
field yields the range whose begin pointer is the payload-region index
`(Σ_{k<i} size_k) / XYZ_SIZE` — i.e. the byte offset `shape-table end +
Σ_{k<i} size_k`, as the divisibility conjunct shows — and the result is
unchanged when every stored `offset` field is rewritten arbitrarily
(`getCubesByShape` never reads it).  Hypotheses: the index is in range,
the entry's size is nonzero, the cube length `n` is nonzero (a valid
cache has n ≥ 1; `n = 0` would make the `ShapeRange` constructor divide
by zero), and the sizes before `i` are XYZ-aligned records. -/
theorem c8_getCubesByShape_recomputes_offsets (f : CacheFileImage) (g : ShapeEntryM → Nat)
    (i : Nat)
    (hi : i < f.entries.length)
    (hsz : (f.entries.getD i ⟨0, 0, 0, 0, 0⟩).size ≠ 0)
    (hn : f.n ≠ 0)
    (hdiv : sumSizes (f.entries.take i) % 3 = 0) :
    ((CacheReader.getCubesByShape (some f) i).bind (fun r => r.b) =
        some (sumSizes (f.entries.take i) / 3)) ∧
    (3 * (sumSizes (f.entries.take i) / 3) = sumSizes (f.entries.take i)) ∧
    (CacheReader.getCubesByShape
        (some ⟨f.magic, f.n, f.numPolycubes,
          f.entries.map fun e => ⟨e.dim0, e.dim1, e.dim2, g e, e.size⟩, f.fileSize⟩) i =
      CacheReader.getCubesByShape (some f) i) := by
  refine ⟨?_, by omega, ?_⟩
  · simp only [CacheReader.getCubesByShape]
    rw [if_neg (Nat.not_le.mpr hi)]
    rw [if_neg hsz]
    simp only [mkShapeRange]
    rw [if_neg hn]
    simp [cacheformat.XYZ_SIZE]
  · have hdims := mapOffsets_getD g f.entries i
    simp only [ShapeEntryM.eraseOffset, Prod.mk.injEq] at hdims
    obtain ⟨h0, h1, h2, h3⟩ := hdims
    have hsum : sumSizes ((f.entries.map fun e =>
        (⟨e.dim0, e.dim1, e.dim2, g e, e.size⟩ : ShapeEntryM)).take i) =
        sumSizes (f.entries.take i) := by
      rw [← List.map_take]
      exact mapOffsets_sumSizes g (f.entries.take i)
    simp only [CacheReader.getCubesByShape, List.length_map]
    rw [h0, h1, h2, h3, hsum]

/-- Witness for C8: a two-entry table with deliberately bogus stored
offsets, queried at index 1; offsets are rewritten to another bogus
value without changing the result. -/
theorem c8_getCubesByShape_recomputes_offsets_witness :
    ((CacheReader.getCubesByShape
          (some ⟨cacheformat.MAGIC, 2, 3, [⟨0, 0, 1, 999, 6⟩, ⟨0, 1, 1, 5, 12⟩], 66⟩) 1).bind
        (fun r => r.b) =
      some (sumSizes (([⟨0, 0, 1, 999, 6⟩, ⟨0, 1, 1, 5, 12⟩] : List ShapeEntryM).take 1) / 3)) ∧
    (3 * (sumSizes (([⟨0, 0, 1, 999, 6⟩, ⟨0, 1, 1, 5, 12⟩] : List ShapeEntryM).take 1) / 3) =
      sumSizes (([⟨0, 0, 1, 999, 6⟩, ⟨0, 1, 1, 5, 12⟩] : List ShapeEntryM).take 1)) ∧
    (CacheReader.getCubesByShape
        (some ⟨cacheformat.MAGIC, 2, 3,
          ([⟨0, 0, 1, 999, 6⟩, ⟨0, 1, 1, 5, 12⟩] : List ShapeEntryM).map
            fun e => ⟨e.dim0, e.dim1, e.dim2, 77777, e.size⟩, 66⟩) 1 =
      CacheReader.getCubesByShape
        (some ⟨cacheformat.MAGIC, 2, 3, [⟨0, 0, 1, 999, 6⟩, ⟨0, 1, 1, 5, 12⟩], 66⟩) 1) :=
  c8_getCubesByShape_recomputes_offsets
    ⟨cacheformat.MAGIC, 2, 3, [⟨0, 0, 1, 999, 6⟩, ⟨0, 1, 1, 5, 12⟩], 66⟩
    (fun _ => 77777) 1 (by decide) (by decide) (by decide) (by decide)

/-- A loaded cache image with an empty shape table. -/
def c10EmptyImage : CacheFileImage := ⟨cacheformat.MAGIC, 4, 0, [], 24⟩

/-- C10: for an index at or past `numShapes` — including the unloaded
reader, whose dummy header makes `numShapes()` 0 — `getCubesByShape`
builds `ShapeRange{nullptr, nullptr, 0, XYZ(0,0,0)}` whose constructor
computes `size_ = std::distance(nullptr, nullptr) / 0`: an integer
division by zero (undefined behaviour, a trap on common targets), not
the empty range with `size() == 0` the claim describes.  The begin and
end pointers of the attempted range are equal (both null), but the
`size_` initializer faults before any range is returned. -/
theorem c10_out_of_range_range_divides_by_zero :
    CacheReader.getCubesByShape none 0 = none ∧
    CacheReader.getCubesByShape (some c10EmptyImage) 0 = none ∧
    mkShapeRange none none 0 ⟨0, 0, 0⟩ = none ∧
    distancePtr none none = 0 := by
  exact ⟨rfl, rfl, rfl, rfl⟩
